import Mathlib

/-!
# Verification of the `flatten` directory-flattening tool

A shallow embedding of the core of the `flatten` program (files
`filter.go` and `cmd/flatten/main.go`): the visibility filter
(`Filter.ShouldInclude`), the recursive tree builder (`loadDirectory`),
the aggregate counters (`getTotalFiles`, `getTotalSize`), the ASCII
tree renderer (`renderDirTree`), the duplicate-aware content serializer
(`printFlattenedOutput`) and the CLI run pipeline (`rootCmd.RunE`).

Modelling conventions:
* Paths are POSIX: the separator is `/`, so `filepath.ToSlash` is the
  identity.  `filepath.Base`, `filepath.Clean` and `filepath.Join` are
  embedded faithfully from the Go standard library for this separator.
* `filepath.Rel` (which consults no state but can fail) is passed in as
  a collaborator parameter `rel : String → String → Option String`;
  `none` models the error return.
* The compiled gitignore matcher (library `go-gitignore`) is the
  collaborator parameter inside `Filter.gitIgnore`; `none` models the
  absence of a `.gitignore` file.
* The content digest (`calculateFileHash`, SHA-256 hex) enters the
  serializer only through digest equality, so it is a collaborator
  parameter `hash : String → String`; every theorem below holds for
  every hash function, in particular for SHA-256.
* File contents (`[]byte`) are modelled as `String`; `string(b)` is the
  identity.  Sizes (`int64`) are `Int`; overflow is immaterial to every
  claim.  The inert `Mode`/`ModTime` fields of `FileEntry` are omitted:
  no claim mentions them and no modelled operation branches on them.
* The filesystem seen by one run is a finite tree of outcomes
  (`FSTree`): a node can fail to stat, a file can fail to read, a
  directory can fail to list.
-/

namespace Flatten

/-! ## Character-level string helpers (POSIX `path/filepath`, `strings`) -/

/-- Does `needle` match the beginning of `hay`? (helper for substring search). -/
def chLeadMatch : List Char → List Char → Bool
  | [], _ => true
  | _ :: _, [] => false
  | a :: as, b :: bs => a = b && chLeadMatch as bs

/-- Does `needle` occur contiguously anywhere in `hay`? -/
def chContains (needle : List Char) : List Char → Bool
  | [] => chLeadMatch needle []
  | c :: cs => chLeadMatch needle (c :: cs) || chContains needle cs

/-- Go `strings.Contains s sub`. -/
def strContainsSub (s sub : String) : Bool :=
  chContains sub.data s.data

/-- Split a character list on a separator; `chSplit '/' "a/b"` = `[[a],[b]]`.
Mirrors `strings.Split` (always at least one, possibly empty, segment). -/
def chSplit (sep : Char) : List Char → List (List Char)
  | [] => [[]]
  | c :: cs =>
    let r := chSplit sep cs
    if c = sep then [] :: r
    else
      match r with
      | [] => [[c]]
      | seg :: rest => (c :: seg) :: rest

/-- Go `filepath.Base` for the `/` separator: empty path gives `"."`,
trailing slashes are stripped, then everything up to the final slash is
dropped; an all-slash path gives `"/"`. -/
def goBase (path : String) : String :=
  if path = "" then "."
  else
    let rcs := path.data.reverse.dropWhile (fun c => c = '/')
    if rcs = [] then "/"
    else String.mk (rcs.takeWhile (fun c => c != '/')).reverse

/-- One segment step of Go `filepath.Clean`: skip empty and `.` segments,
resolve `..` against the output stack, push everything else. -/
def cleanStep (rooted : Bool) (acc : List (List Char)) (seg : List Char) : List (List Char) :=
  if seg.isEmpty || seg == ['.'] then acc
  else if seg == ['.', '.'] then
    match acc with
    | [] => if rooted then [] else [['.', '.']]
    | top :: rest => if top == ['.', '.'] then ['.', '.'] :: acc else rest
  else seg :: acc

/-- Go `filepath.Clean` for the `/` separator. -/
def goClean (path : String) : String :=
  if path = "" then "."
  else
    let rooted : Bool := match path.data with | '/' :: _ => true | _ => false
    let out := (chSplit '/' path.data).foldl (cleanStep rooted) []
    let body := String.intercalate "/" (out.reverse.map String.mk)
    if rooted then (if body = "" then "/" else "/" ++ body)
    else (if body = "" then "." else body)

/-- Go `filepath.Join` restricted to the two arguments the walk uses:
empty elements are skipped and the result is cleaned. -/
def goJoin (a b : String) : String :=
  if a = "" && b = "" then ""
  else if a = "" then goClean b
  else goClean (a ++ "/" ++ b)

/-- Go `filepath.ToSlash`: the identity on POSIX, where the separator
already is `/`. -/
def toSlash (p : String) : String := p

/-- Does `".git"` occur as a path segment of the slash-separated path?
This is the *specification-side* notion used by the ignore claims (the
code tests base name and the `"/.git/"` substring instead). -/
def hasDotGitSegment (p : String) : Bool :=
  (chSplit '/' p.data).contains ['.', 'g', 'i', 't']

/-! ## The visibility filter (`filter.go`, `Filter` / `ShouldInclude`) -/

/-- The `Filter` struct of `filter.go`.  `gitIgnore` holds the compiled
matcher of the root's `.gitignore` (`none` when no such file exists or
`--include-gitignore` was given); `includeAll` is `--include-gitignore`;
`includeGit` is `--include-git`; `baseDir` is the filtered root. -/
structure Filter where
  gitIgnore : Option (String → Bool)
  includeAll : Bool
  includeGit : Bool
  baseDir : String

/-- The leading `.git` test of `ShouldInclude`: with `includeGit` unset,
exclude when the base name is `".git"` or the slash-form path contains
`"/.git/"`. -/
def gitRuleExcludes (f : Filter) (path : String) : Bool :=
  !f.includeGit && (goBase path == ".git" || strContainsSub (toSlash path) "/.git/")

/-- `Filter.ShouldInclude` from `filter.go`: the `.git` rule first, then
`includeAll`, then absence of a `.gitignore`, then relative-path
computation (`rel`, modelling `filepath.Rel`; failure defaults to
include), finally the gitignore matcher on the slash-normalized
relative path. -/
def Filter.ShouldInclude (rel : String → String → Option String) (f : Filter)
    (path : String) : Bool :=
  if gitRuleExcludes f path then false
  else if f.includeAll then true
  else
    match f.gitIgnore with
    | none => true
    | some matcher =>
      match rel f.baseDir path with
      | none => true
      | some relPath => !matcher (toSlash relPath)

/-! ## The in-memory tree (`FileEntry`) and the filesystem model -/

/-- The `FileEntry` struct of `main.go`: path, `IsDir`, `Size`, content
bytes, and owned children.  (`Mode` and `ModTime` are omitted: inert
for every claim.)  Field order matches the Go struct. -/
inductive FileEntry where
  | mk : String → Bool → Int → String → List FileEntry → FileEntry

def FileEntry.Path : FileEntry → String
  | .mk p _ _ _ _ => p

def FileEntry.IsDir : FileEntry → Bool
  | .mk _ d _ _ _ => d

def FileEntry.Size : FileEntry → Int
  | .mk _ _ s _ _ => s

def FileEntry.Content : FileEntry → String
  | .mk _ _ _ c _ => c

def FileEntry.Children : FileEntry → List FileEntry
  | .mk _ _ _ _ cs => cs

/-- One run's view of the filesystem under a path, as a tree of
outcomes: `statFail` = `os.Stat` errors there; `file size content` =
a non-directory whose `os.ReadFile` yields `content` (`none` = read
error); `dir size entries` = a directory whose `os.ReadDir` yields the
named children in listing order (`none` = list error). -/
inductive FSTree where
  | statFail : FSTree
  | file : Int → Option String → FSTree
  | dir : Int → Option (List (String × FSTree)) → FSTree

/-- The fatal build errors of `loadDirectory`, each carrying the
offending path exactly as the wrapped Go error message does
(`failed to stat path %s` / `failed to read file %s` /
`failed to read directory %s`). -/
inductive LoadError where
  | statFailure : String → LoadError
  | readFailure : String → LoadError
  | readDirFailure : String → LoadError

/-- The path named by a build error. -/
def LoadError.path : LoadError → String
  | .statFailure p => p
  | .readFailure p => p
  | .readDirFailure p => p

mutual
/-- `loadDirectory` from `main.go`: stat (fatal on failure), then the
visibility filter (`nil, nil` — here `ok none` — when excluded), then
either a full content read (fatal on failure) for a file, or a listing
(fatal on failure) and an in-order recursion for a directory, keeping
only non-`nil` children.  The first child error aborts the whole walk. -/
def loadDirectory (rel : String → String → Option String) (f : Filter)
    (path : String) : FSTree → Except LoadError (Option FileEntry)
  | .statFail => .error (.statFailure path)
  | .file size content =>
    if !(f.ShouldInclude rel path) then .ok none
    else
      match content with
      | none => .error (.readFailure path)
      | some c => .ok (some (.mk path false size c []))
  | .dir size entries =>
    if !(f.ShouldInclude rel path) then .ok none
    else
      match entries with
      | none => .error (.readDirFailure path)
      | some items =>
        match loadChildren rel f path items with
        | .error e => .error e
        | .ok cs => .ok (some (.mk path true size "" cs))

/-- The child loop of `loadDirectory`: recurse on `Join(path, name)` in
listing order, propagate the first error, append non-`nil` results. -/
def loadChildren (rel : String → String → Option String) (f : Filter)
    (path : String) : List (String × FSTree) → Except LoadError (List FileEntry)
  | [] => .ok []
  | (name, t) :: rest =>
    match loadDirectory rel f (goJoin path name) t with
    | .error e => .error e
    | .ok none => loadChildren rel f path rest
    | .ok (some c) =>
      match loadChildren rel f path rest with
      | .error e => .error e
      | .ok cs => .ok (c :: cs)
end

/-! ## Counters and renderers (`main.go`) -/

mutual
/-- `getTotalFiles`: 1 for a non-directory, else the sum over children. -/
def getTotalFiles : FileEntry → Nat
  | .mk _ d _ _ cs => if !d then 1 else getTotalFilesList cs

def getTotalFilesList : List FileEntry → Nat
  | [] => 0
  | c :: cs => getTotalFiles c + getTotalFilesList cs
end

mutual
/-- `getTotalSize`: the size for a non-directory, else the sum over
children. -/
def getTotalSize : FileEntry → Int
  | .mk _ d s _ cs => if !d then s else getTotalSizeList cs

def getTotalSizeList : List FileEntry → Int
  | [] => 0
  | c :: cs => getTotalSize c + getTotalSizeList cs
end

mutual
/-- `renderDirTree` from `main.go`: print
`prefix ++ connector ++ Base(path)` unless the path is `"."`, then for
a directory recurse over the children with the prefix extended by
`"    "` after a last entry and `"│   "` otherwise (again unless the
path is `"."`). -/
def renderDirTree (e : FileEntry) (pfx : String) (isLast : Bool) : String :=
  match e with
  | .mk path d _ _ cs =>
    (if path ≠ "." then pfx ++ (if isLast then "└── " else "├── ") ++ goBase path ++ "\n"
     else "")
    ++ (if d then
          renderDirTreeLoop
            (if path ≠ "." then pfx ++ (if isLast then "    " else "│   ") else pfx) cs
        else "")

/-- The `for i, child` loop of `renderDirTree`: the last child is the
one rendered with `isLast = true`. -/
def renderDirTreeLoop (pfx : String) : List FileEntry → String
  | [] => ""
  | [c] => renderDirTree c pfx true
  | c :: c2 :: cs => renderDirTree c pfx false ++ renderDirTreeLoop pfx (c2 :: cs)
end

/-- The `FileHash` struct of `main.go`. -/
structure FileHash where
  Path : String
  Hash : String
  Content : String

/-- The `fileHashes` map: digest to first-seen `FileHash`. -/
abbrev HashIndex := List (String × FileHash)

mutual
/-- `printFlattenedOutput` from `main.go`, with the `strings.Builder`
as the explicit accumulator `w` and the digest function as the
collaborator `hash`.  For a file: with `noDedup` the path line and the
full fenced content; otherwise either a `Contents are identical to`
reference to the first-seen path of the same digest, or the full fenced
content plus a map insertion.  For a directory: recurse only. -/
def printFlattenedOutput (noDedup : Bool) (hash : String → String) :
    FileEntry → String → HashIndex → String × HashIndex
  | .mk path d _ content cs, w, m =>
    if !d then
      if noDedup then
        (w ++ "\n- path: " ++ path ++ "\n" ++ "- content:\n```\n" ++ content ++ "\n```\n", m)
      else
        match m.lookup (hash content) with
        | some existing =>
          (w ++ "\n- path: " ++ path ++ "\n" ++ "- content: Contents are identical to "
             ++ existing.Path ++ "\n", m)
        | none =>
          (w ++ "\n- path: " ++ path ++ "\n" ++ "- content:\n```\n" ++ content ++ "\n```\n",
           (hash content, ⟨path, hash content, content⟩) :: m)
    else printFlattenedList noDedup hash cs w m

/-- The child loop of `printFlattenedOutput`. -/
def printFlattenedList (noDedup : Bool) (hash : String → String) :
    List FileEntry → String → HashIndex → String × HashIndex
  | [], w, m => (w, m)
  | c :: cs, w, m =>
    let r := printFlattenedOutput noDedup hash c w m
    printFlattenedList noDedup hash cs r.1 r.2
end

/-! ## The CLI run pipeline (`rootCmd.RunE`) -/

/-- The observable outcome of one `rootCmd.RunE` invocation after the
filter has been built: the assembled output text, a reported load
error, or the runtime panic that occurs when the `nil` root returned by
`loadDirectory` for a filtered-out root is dereferenced by
`getTotalFiles`. -/
inductive RunOutcome where
  | output : String → RunOutcome
  | loadFailed : LoadError → RunOutcome
  | nilDereference : RunOutcome

/-- `rootCmd.RunE` after filter construction: load the tree (surface a
load error), then — without any `nil` check on the root — build the
summary header with `getTotalFiles` / `getTotalSize` / `renderDirTree`
and append `printFlattenedOutput`.  A `nil` root makes `getTotalFiles`
dereference a nil pointer, modelled by the `nilDereference` outcome. -/
def rootCmdRun (rel : String → String → Option String) (hash : String → String)
    (noDedup : Bool) (f : Filter) (dir : String) (t : FSTree) : RunOutcome :=
  match loadDirectory rel f dir t with
  | .error e => .loadFailed e
  | .ok none => .nilDereference
  | .ok (some root) =>
    .output (printFlattenedOutput noDedup hash root
      ("- Total files: " ++ toString (getTotalFiles root) ++ "\n"
        ++ "- Total size: " ++ toString (getTotalSize root) ++ " bytes\n"
        ++ "- Dir tree:\n" ++ renderDirTree root "" false ++ "\n") []).1

/-! ## Specification-side definitions

These follow the spec's words, to be compared with the embedded code. -/

mutual
/-- All entries of a tree: the entry itself and, recursively, the
entries of its children. -/
def allEntries : FileEntry → List FileEntry
  | .mk p d s c cs => .mk p d s c cs :: allEntriesList cs

def allEntriesList : List FileEntry → List FileEntry
  | [] => []
  | c :: cs => allEntries c ++ allEntriesList cs
end

mutual
/-- The non-directory entries of a tree in the depth-first
children-in-listing-order traversal that both the counters and the
serializer use; directories are only recursed through. -/
def dfsFiles : FileEntry → List FileEntry
  | .mk p d s c cs => if !d then [.mk p d s c cs] else dfsFilesList cs

def dfsFilesList : List FileEntry → List FileEntry
  | [] => []
  | c :: cs => dfsFiles c ++ dfsFilesList cs
end

mutual
/-- The data-model invariant: a directory entry's content is never
populated, a file entry's children are always empty, recursively. -/
def wellFormed : FileEntry → Bool
  | .mk _ d _ content cs =>
    (if d then content == "" else cs.isEmpty) && wellFormedList cs

def wellFormedList : List FileEntry → Bool
  | [] => true
  | c :: cs => wellFormed c && wellFormedList cs
end

/-- The full record block of a file: path line plus fenced content. -/
def fullBlock (e : FileEntry) : String :=
  "\n- path: " ++ e.Path ++ "\n" ++ "- content:\n```\n" ++ e.Content ++ "\n```\n"

/-- The reference record block of a duplicate file: path line plus a
reference to the first-seen path, no fence. -/
def refBlock (e : FileEntry) (firstPath : String) : String :=
  "\n- path: " ++ e.Path ++ "\n" ++ "- content: Contents are identical to " ++ firstPath ++ "\n"

/-- The text emitted for one file by the serializer, given the digest
index accumulated so far. -/
def fileChunk (noDedup : Bool) (hash : String → String) (e : FileEntry)
    (m : HashIndex) : String :=
  if noDedup then fullBlock e
  else
    match m.lookup (hash e.Content) with
    | some existing => refBlock e existing.Path
    | none => fullBlock e

/-- The digest-index update performed for one file by the serializer. -/
def indexStep (noDedup : Bool) (hash : String → String) (e : FileEntry)
    (m : HashIndex) : HashIndex :=
  if noDedup then m
  else
    match m.lookup (hash e.Content) with
    | some _ => m
    | none => (hash e.Content, ⟨e.Path, hash e.Content, e.Content⟩) :: m

/-- Serialization as a left-to-right pass over the file list: each file
appends its chunk and updates the digest index. -/
def renderFiles (noDedup : Bool) (hash : String → String) :
    List FileEntry → String → HashIndex → String × HashIndex
  | [], w, m => (w, m)
  | e :: es, w, m =>
    renderFiles noDedup hash es (w ++ fileChunk noDedup hash e m) (indexStep noDedup hash e m)

mutual
/-- The first stat / read / list failure that the filtered walk meets,
in walk order (spec: `StatFailure`, `ReadFailure` and the directory
listing failure are fatal and carry the offending path; excluded
subtrees are never descended into). -/
def firstFailure (rel : String → String → Option String) (f : Filter)
    (path : String) : FSTree → Option LoadError
  | .statFail => some (.statFailure path)
  | .file _ content =>
    if !(f.ShouldInclude rel path) then none
    else match content with
      | none => some (.readFailure path)
      | some _ => none
  | .dir _ entries =>
    if !(f.ShouldInclude rel path) then none
    else match entries with
      | none => some (.readDirFailure path)
      | some items => firstFailureList rel f path items

def firstFailureList (rel : String → String → Option String) (f : Filter)
    (path : String) : List (String × FSTree) → Option LoadError
  | [] => none
  | (name, t) :: rest =>
    match firstFailure rel f (goJoin path name) t with
    | some e => some e
    | none => firstFailureList rel f path rest
end

mutual
/-- Spec-side rendering of one non-root entry: the accumulated prefix,
`└── ` for a last child and `├── ` otherwise, the base name, and for a
directory the children below a prefix extended by four spaces after a
last child and `│   ` otherwise. -/
def specTreeNode (pfx : String) (isLast : Bool) : FileEntry → String
  | .mk p d _ _ cs =>
    pfx ++ (if isLast then "└── " else "├── ") ++ goBase p ++ "\n"
      ++ (if d then
            specTreeChildren (pfx ++ (if isLast then "    " else "│   ")) cs
          else "")

/-- Spec-side rendering of a child list: all but the last child with
`├── `, the last with `└── `. -/
def specTreeChildren (pfx : String) : List FileEntry → String
  | [] => ""
  | [c] => specTreeNode pfx true c
  | c :: c2 :: cs => specTreeNode pfx false c ++ specTreeChildren pfx (c2 :: cs)
end

/-- Spec-side rendering of a whole tree: the root itself is never
printed as a line, only its children are rendered. -/
def renderDirTreeSpec (root : FileEntry) : String :=
  specTreeChildren "" root.Children

mutual
/-- Every entry of the subtree has a path different from `"."`. -/
def allPathsNotDot : FileEntry → Bool
  | .mk p _ _ _ cs => p != "." && allPathsNotDotList cs

def allPathsNotDotList : List FileEntry → Bool
  | [] => true
  | c :: cs => allPathsNotDot c && allPathsNotDotList cs
end

/-- Concatenation of a list of strings (spec side: the rendered output
is exactly the concatenation of the per-file record blocks). -/
def concatAll : List String → String
  | [] => ""
  | s :: ss => s ++ concatAll ss

/-! ## Concrete fixtures for witnesses -/

/-- A convenient total stub for the `filepath.Rel` collaborator used in
concrete evaluations: returns the path unchanged (as `Rel` does not get
consulted on these inputs, any total stub serves). -/
def relId : String → String → Option String := fun _ p => some p

/-- A filter with default flags (`--include-git` and
`--include-gitignore` unset) and no `.gitignore` present, rooted at
`dir`. -/
def defaultFilter (dir : String) : Filter := ⟨none, false, false, dir⟩

/-- A small concrete filesystem: `a.txt` ("hello"), and `sub/` with
`b.txt` ("hello", a duplicate of `a.txt`) and `c.txt` ("xyz"). -/
def fsDot : FSTree :=
  .dir 0 (some
    [("a.txt", .file 5 (some "hello")),
     ("sub", .dir 0 (some
       [("b.txt", .file 5 (some "hello")),
        ("c.txt", .file 3 (some "xyz"))]))])

/-- The tree that `loadDirectory` builds from `fsDot` at root `"."`. -/
def entryDot : FileEntry :=
  .mk "." true 0 ""
    [.mk "a.txt" false 5 "hello" [],
     .mk "sub" true 0 ""
       [.mk "sub/b.txt" false 5 "hello" [],
        .mk "sub/c.txt" false 3 "xyz" []]]

/-! ## Theorems -/

/-- C1: the tree build applies the visibility filter to the root path
itself.  With default flags and a root directory named `.git`,
`loadDirectory` returns `nil, nil` (here `Except.ok none`): the build
omits the root because of its own name, contrary to the claim that
filtering is never applied to the root.  The spec records the intended
invariant; the code, which then dereferences the `nil` root (see the
C5 theorem), is the slip. -/
theorem loadDirectory_root_filtered_out :
    loadDirectory relId (defaultFilter ".git") ".git"
      (.dir 0 (some [("a.txt", .file 5 (some "hello"))])) = .ok none := rfl

/-- C5: when the visibility filter rejects the root path itself (and
the root stats successfully), `loadDirectory` returns a nil entry with
a nil error, and `rootCmd.RunE` passes that nil entry unchecked into
`getTotalFiles`, dereferencing a nil pointer (`nilDereference`). -/
theorem run_nil_root_dereference (rel : String → String → Option String)
    (hash : String → String) (noDedup : Bool) (f : Filter) (dir : String) (t : FSTree)
    (hstat : t ≠ FSTree.statFail)
    (hexc : f.ShouldInclude rel dir = false) :
    loadDirectory rel f dir t = .ok none ∧
      rootCmdRun rel hash noDedup f dir t = .nilDereference := by
  have hload : loadDirectory rel f dir t = .ok none := by
    cases t with
    | statFail => exact absurd rfl hstat
    | file size content =>
      unfold loadDirectory
      simp [hexc]
    | dir size entries =>
      unfold loadDirectory
      simp [hexc]
  refine ⟨hload, ?_⟩
  unfold rootCmdRun
  rw [hload]

/-- Witness for C5: running on a root directory named `.git` with
default flags panics on the nil root. -/
theorem run_nil_root_dereference_witness :
    (FSTree.dir 0 (some ([] : List (String × FSTree))) ≠ FSTree.statFail ∧
      (defaultFilter ".git").ShouldInclude relId ".git" = false) ∧
    (loadDirectory relId (defaultFilter ".git") ".git" (.dir 0 (some [])) = .ok none ∧
      rootCmdRun relId (fun s => s) false (defaultFilter ".git") ".git"
        (.dir 0 (some [])) = .nilDereference) := by
  have hne : FSTree.dir 0 (some ([] : List (String × FSTree))) ≠ FSTree.statFail := by
    intro h
    exact FSTree.noConfusion h
  refine ⟨⟨hne, rfl⟩, ?_⟩
  exact run_nil_root_dereference relId (fun s => s) false (defaultFilter ".git") ".git"
    (.dir 0 (some [])) hne rfl

/-- C2 counterexample: a path with `.git` as its *leading* segment has
base name `"foo"` and does not contain the substring `"/.git/"`, so
`ShouldInclude` returns `true` for it even with `includeGit` unset
(here additionally in include-everything-ignored mode, which the claim
covers); and a build rooted at `".git/sub"` produces a tree containing
a file whose path has `.git` as a segment. -/
theorem shouldInclude_leading_git_segment_included :
    hasDotGitSegment ".git/foo" = true ∧
    Filter.ShouldInclude relId ⟨none, true, false, "."⟩ ".git/foo" = true ∧
    loadDirectory relId (defaultFilter ".git/sub") ".git/sub"
        (.dir 0 (some [("a.txt", .file 5 (some "hello"))])) =
      .ok (some (.mk ".git/sub" true 0 "" [.mk ".git/sub/a.txt" false 5 "hello" []])) ∧
    hasDotGitSegment ".git/sub/a.txt" = true :=
  ⟨rfl, rfl, rfl, rfl⟩

/-- C2 (amended): with `includeGit` unset, every path whose base name
is `".git"` or whose slash form contains `"/.git/"` is excluded by
`ShouldInclude`, regardless of the ignore file's contents and of
include-everything-ignored mode.  (A path whose `.git` segment is the
leading segment of a relative path escapes this rule; see the
counterexample.) -/
theorem gitRule_excludes_regardless (rel : String → String → Option String)
    (f : Filter) (p : String)
    (hg : f.includeGit = false)
    (h : goBase p = ".git" ∨ strContainsSub (toSlash p) "/.git/" = true) :
    f.ShouldInclude rel p = false := by
  have hrule : gitRuleExcludes f p = true := by
    rcases h with h | h <;> simp [gitRuleExcludes, hg, h]
  simp [Filter.ShouldInclude, hrule]

/-- Witness for the amended C2: `"a/.git/b"` is excluded even in
include-everything-ignored mode with a matcher that matches nothing. -/
theorem gitRule_excludes_regardless_witness :
    ((⟨some (fun _ => false), true, false, "."⟩ : Filter).includeGit = false ∧
      strContainsSub (toSlash "a/.git/b") "/.git/" = true) ∧
    Filter.ShouldInclude relId ⟨some (fun _ => false), true, false, "."⟩ "a/.git/b" = false :=
  ⟨⟨rfl, rfl⟩,
    gitRule_excludes_regardless relId ⟨some (fun _ => false), true, false, "."⟩ "a/.git/b"
      rfl (Or.inr rfl)⟩

/-- C6: whenever the relative-path computation is actually performed
and fails (the `.git` rule, which precedes it, did not already exclude
the path), `ShouldInclude` defaults to `true` — the entry is included
— and no error is surfaced: `ShouldInclude` is a total boolean
predicate with no error channel, and `loadDirectory` errors only on
stat/read/list failures. -/
theorem shouldInclude_relFailure_included (rel : String → String → Option String)
    (f : Filter) (p : String)
    (hgit : gitRuleExcludes f p = false)
    (hrel : rel f.baseDir p = none) :
    f.ShouldInclude rel p = true := by
  unfold Filter.ShouldInclude
  rcases hall : f.includeAll with _ | _ <;>
    rcases hgi : f.gitIgnore with _ | m <;>
      simp [hgit, hall, hgi, hrel]

/-- Witness for C6: with a matcher that would exclude everything, a
path on which `rel` fails is still included. -/
theorem shouldInclude_relFailure_included_witness :
    (gitRuleExcludes ⟨some (fun _ => true), false, false, "/a"⟩ "x" = false ∧
      (fun (_ : String) (_ : String) => (none : Option String)) "/a" "x" = none) ∧
    Filter.ShouldInclude (fun _ _ => none) ⟨some (fun _ => true), false, false, "/a"⟩ "x" = true :=
  ⟨⟨rfl, rfl⟩,
    shouldInclude_relFailure_included (fun _ _ => none)
      ⟨some (fun _ => true), false, false, "/a"⟩ "x" rfl rfl⟩

/-! ### Unfolding lemmas and the build invariant -/

/-- Unfolding: the stat-failure case of `loadDirectory`. -/
theorem loadDirectory_statFail (rel : String → String → Option String) (f : Filter)
    (p : String) :
    loadDirectory rel f p .statFail = .error (.statFailure p) := rfl

/-- Unfolding: the empty child list. -/
theorem loadChildren_nil (rel : String → String → Option String) (f : Filter)
    (p : String) :
    loadChildren rel f p [] = .ok [] := rfl

mutual
/-- Every entry built by `loadDirectory` satisfies the data-model
invariant (`wellFormed`). -/
theorem loadDirectory_wf : ∀ (rel : String → String → Option String) (f : Filter)
    (p : String) (t : FSTree) (e : FileEntry),
    loadDirectory rel f p t = .ok (some e) → wellFormed e = true
  | rel, f, p, .statFail, e, h => by
    rw [loadDirectory_statFail] at h
    exact Except.noConfusion h
  | rel, f, p, .file size content, e, h => by
    unfold loadDirectory at h
    rcases hI : f.ShouldInclude rel p with _ | _
    · simp [hI] at h
    · rcases content with _ | c
      · simp [hI] at h
      · simp [hI] at h
        subst h
        rfl
  | rel, f, p, .dir size entries, e, h => by
    unfold loadDirectory at h
    rcases hI : f.ShouldInclude rel p with _ | _
    · simp [hI] at h
    · rcases entries with _ | items
      · simp [hI] at h
      · rcases hc : loadChildren rel f p items with e2 | cs
        · simp [hI, hc] at h
        · simp [hI, hc] at h
          subst h
          have hwf := loadChildren_wf rel f p items cs hc
          simp [wellFormed, hwf]

/-- Every child list built by `loadChildren` satisfies the data-model
invariant (`wellFormedList`). -/
theorem loadChildren_wf : ∀ (rel : String → String → Option String) (f : Filter)
    (p : String) (items : List (String × FSTree)) (cs : List FileEntry),
    loadChildren rel f p items = .ok cs → wellFormedList cs = true
  | rel, f, p, [], cs, h => by
    rw [loadChildren_nil] at h
    cases h
    rfl
  | rel, f, p, (name, t) :: rest, cs, h => by
    unfold loadChildren at h
    rcases hd : loadDirectory rel f (goJoin p name) t with e2 | o
    · simp [hd] at h
    · rcases o with _ | c
      · simp [hd] at h
        exact loadChildren_wf rel f p rest cs h
      · rcases hr : loadChildren rel f p rest with e2 | cs2
        · simp [hd, hr] at h
        · simp [hd, hr] at h
          subst h
          have h1 := loadDirectory_wf rel f (goJoin p name) t c hd
          have h2 := loadChildren_wf rel f p rest cs2 hr
          simp [wellFormedList, h1, h2]
end

mutual
/-- A well-formed tree: every entry of it has unpopulated content when
a directory and no children when a file. -/
theorem wellFormed_entries : ∀ (e : FileEntry), wellFormed e = true →
    ∀ x ∈ allEntries e,
      (x.IsDir = true → x.Content = "") ∧ (x.IsDir = false → x.Children = [])
  | .mk p d s c cs, h => by
    unfold wellFormed at h
    rw [Bool.and_eq_true] at h
    intro x hx
    unfold allEntries at hx
    rw [List.mem_cons] at hx
    rcases hx with hx | hx
    · subst hx
      rcases d with _ | _
      · have hcs : cs = [] := by
          simp only [Bool.false_eq_true, if_false] at h
          simpa [List.isEmpty_iff] using h.1
        subst hcs
        simp [FileEntry.IsDir, FileEntry.Children]
      · have hc : c = "" := by
          simp only [if_true] at h
          simpa using h.1
        subst hc
        simp [FileEntry.IsDir, FileEntry.Content]
    · exact wellFormed_entries_list cs h.2 x hx

/-- List version of `wellFormed_entries`. -/
theorem wellFormed_entries_list : ∀ (cs : List FileEntry), wellFormedList cs = true →
    ∀ x ∈ allEntriesList cs,
      (x.IsDir = true → x.Content = "") ∧ (x.IsDir = false → x.Children = [])
  | [], _, x, hx => by
    unfold allEntriesList at hx
    exact absurd hx (List.not_mem_nil x)
  | c :: cs, h, x, hx => by
    unfold wellFormedList at h
    rw [Bool.and_eq_true] at h
    unfold allEntriesList at hx
    rw [List.mem_append] at hx
    rcases hx with hx | hx
    · exact wellFormed_entries c h.1 x hx
    · exact wellFormed_entries_list cs h.2 x hx
end

/-- C10: every entry produced by the tree build satisfies the
data-model invariant: a directory entry's content is never populated,
and a file entry's children sequence is empty — for the root and
recursively for every descendant. -/
theorem built_tree_invariant (rel : String → String → Option String) (f : Filter)
    (p : String) (t : FSTree) (e : FileEntry)
    (h : loadDirectory rel f p t = .ok (some e)) :
    ∀ x ∈ allEntries e,
      (x.IsDir = true → x.Content = "") ∧ (x.IsDir = false → x.Children = []) :=
  wellFormed_entries e (loadDirectory_wf rel f p t e h) 

/-- Witness for C10 on the concrete build from `fsDot`. -/
theorem built_tree_invariant_witness :
    loadDirectory relId (defaultFilter ".") "." fsDot = .ok (some entryDot) ∧
    ∀ x ∈ allEntries entryDot,
      (x.IsDir = true → x.Content = "") ∧ (x.IsDir = false → x.Children = []) :=
  ⟨rfl, built_tree_invariant relId (defaultFilter ".") "." fsDot entryDot rfl⟩

/-! ### Counters versus the entry list (C9) -/

mutual
/-- On well-formed trees, `getTotalFiles` counts exactly the
non-directory entries. -/
theorem getTotalFiles_spec : ∀ (e : FileEntry), wellFormed e = true →
    getTotalFiles e = ((allEntries e).filter (fun x => !x.IsDir)).length
  | .mk p d s c cs, h => by
    unfold wellFormed at h
    rw [Bool.and_eq_true] at h
    unfold getTotalFiles allEntries
    rcases d with _ | _
    · have hcs : cs = [] := by
        simp only [Bool.false_eq_true, if_false] at h
        simpa [List.isEmpty_iff] using h.1
      subst hcs
      simp [allEntriesList, FileEntry.IsDir]
    · have hrec := getTotalFilesList_spec cs h.2
      simp [FileEntry.IsDir, hrec]

/-- List version of `getTotalFiles_spec`. -/
theorem getTotalFilesList_spec : ∀ (cs : List FileEntry), wellFormedList cs = true →
    getTotalFilesList cs = ((allEntriesList cs).filter (fun x => !x.IsDir)).length
  | [], _ => by simp [getTotalFilesList, allEntriesList]
  | c :: cs, h => by
    unfold wellFormedList at h
    rw [Bool.and_eq_true] at h
    unfold getTotalFilesList allEntriesList
    rw [List.filter_append, List.length_append,
      getTotalFiles_spec c h.1, getTotalFilesList_spec cs h.2]
end

mutual
/-- On well-formed trees, `getTotalSize` sums exactly the sizes of the
non-directory entries. -/
theorem getTotalSize_spec : ∀ (e : FileEntry), wellFormed e = true →
    getTotalSize e = (((allEntries e).filter (fun x => !x.IsDir)).map FileEntry.Size).sum
  | .mk p d s c cs, h => by
    unfold wellFormed at h
    rw [Bool.and_eq_true] at h
    unfold getTotalSize allEntries
    rcases d with _ | _
    · have hcs : cs = [] := by
        simp only [Bool.false_eq_true, if_false] at h
        simpa [List.isEmpty_iff] using h.1
      subst hcs
      simp [allEntriesList, FileEntry.IsDir, FileEntry.Size]
    · have hrec := getTotalSizeList_spec cs h.2
      simp [FileEntry.IsDir, hrec]

/-- List version of `getTotalSize_spec`. -/
theorem getTotalSizeList_spec : ∀ (cs : List FileEntry), wellFormedList cs = true →
    getTotalSizeList cs = (((allEntriesList cs).filter (fun x => !x.IsDir)).map FileEntry.Size).sum
  | [], _ => by simp [getTotalSizeList, allEntriesList]
  | c :: cs, h => by
    unfold wellFormedList at h
    rw [Bool.and_eq_true] at h
    unfold getTotalSizeList allEntriesList
    rw [List.filter_append, List.map_append, List.sum_append,
      getTotalSize_spec c h.1, getTotalSizeList_spec cs h.2]
end

/-- C9: on every built tree, `getTotalFiles` returns exactly the number
of non-directory entries (directories contribute nothing) and
`getTotalSize` the sum of the sizes of all non-directory entries
(directories contribute 0), both as full recursive tallies over the
same tree. -/
theorem totals_count_and_size (rel : String → String → Option String) (f : Filter)
    (p : String) (t : FSTree) (e : FileEntry)
    (h : loadDirectory rel f p t = .ok (some e)) :
    getTotalFiles e = ((allEntries e).filter (fun x => !x.IsDir)).length ∧
    getTotalSize e = (((allEntries e).filter (fun x => !x.IsDir)).map FileEntry.Size).sum := by
  have hwf := loadDirectory_wf rel f p t e h
  exact ⟨getTotalFiles_spec e hwf, getTotalSize_spec e hwf⟩

/-- Witness for C9 on the concrete build from `fsDot`. -/
theorem totals_count_and_size_witness :
    loadDirectory relId (defaultFilter ".") "." fsDot = .ok (some entryDot) ∧
    (getTotalFiles entryDot = ((allEntries entryDot).filter (fun x => !x.IsDir)).length ∧
      getTotalSize entryDot =
        (((allEntries entryDot).filter (fun x => !x.IsDir)).map FileEntry.Size).sum) :=
  ⟨rfl, totals_count_and_size relId (defaultFilter ".") "." fsDot entryDot rfl⟩

/-! ### Fatal build failures (C7) -/

mutual
/-- `loadDirectory` returns an error exactly when the filtered walk
meets a stat / read / list failure, and the error is precisely the
first such failure (which carries the offending path). -/
theorem loadDirectory_error_iff : ∀ (rel : String → String → Option String) (f : Filter)
    (p : String) (t : FSTree) (e : LoadError),
    loadDirectory rel f p t = .error e ↔ firstFailure rel f p t = some e
  | rel, f, p, .statFail, e => by
    rw [loadDirectory_statFail]
    unfold firstFailure
    constructor
    · intro h
      cases h
      rfl
    · intro h
      cases h
      rfl
  | rel, f, p, .file size content, e => by
    unfold loadDirectory firstFailure
    rcases hI : f.ShouldInclude rel p with _ | _
    · simp [hI]
    · rcases content with _ | c <;> simp [hI]
  | rel, f, p, .dir size entries, e => by
    unfold loadDirectory firstFailure
    rcases hI : f.ShouldInclude rel p with _ | _
    · simp [hI]
    · rcases entries with _ | items
      · simp [hI]
      · rcases hc : loadChildren rel f p items with e2 | cs
        · have hf := (loadChildren_error_iff rel f p items e2).mp hc
          simp [hI, hc, hf]
        · simp only [hI, hc, Bool.not_true, Bool.false_eq_true, if_false]
          constructor
          · intro h
            exact Except.noConfusion h
          · intro h
            have hcontra := (loadChildren_error_iff rel f p items e).mpr h
            rw [hc] at hcontra
            exact Except.noConfusion hcontra

/-- List version of `loadDirectory_error_iff`, walking the children in
listing order. -/
theorem loadChildren_error_iff : ∀ (rel : String → String → Option String) (f : Filter)
    (p : String) (items : List (String × FSTree)) (e : LoadError),
    loadChildren rel f p items = .error e ↔ firstFailureList rel f p items = some e
  | rel, f, p, [], e => by
    rw [loadChildren_nil]
    unfold firstFailureList
    simp
  | rel, f, p, (name, t) :: rest, e => by
    unfold loadChildren firstFailureList
    rcases hd : loadDirectory rel f (goJoin p name) t with e2 | o
    · have hf := (loadDirectory_error_iff rel f (goJoin p name) t e2).mp hd
      simp [hf]
    · have hfn : firstFailure rel f (goJoin p name) t = none := by
        rcases hff : firstFailure rel f (goJoin p name) t with _ | e2
        · rfl
        · have hcontra := (loadDirectory_error_iff rel f (goJoin p name) t e2).mpr hff
          rw [hd] at hcontra
          exact Except.noConfusion hcontra
      rcases o with _ | c
      · simp only [hfn]
        exact loadChildren_error_iff rel f p rest e
      · rcases hr : loadChildren rel f p rest with e2 | cs2
        · have hfr := (loadChildren_error_iff rel f p rest e2).mp hr
          simp [hr, hfn, hfr]
        · simp only [hr, hfn]
          constructor
          · intro h
            exact Except.noConfusion h
          · intro h
            have hcontra := (loadChildren_error_iff rel f p rest e).mpr h
            rw [hr] at hcontra
            exact Except.noConfusion hcontra
end

/-- C7: the build is all-or-nothing.  `loadDirectory` returns an error
exactly when stating a path, reading an included file, or listing an
included directory fails somewhere in the filtered walk; the error is
the walk's first such failure, whose constructor carries the offending
path (`LoadError.path`); and since the error is the whole result, no
tree — in particular no incomplete tree — is returned alongside it.  A
read failure on a single included file is therefore fatal to the whole
operation rather than skipped. -/
theorem build_failure_fatal_iff (rel : String → String → Option String) (f : Filter)
    (p : String) (t : FSTree) (e : LoadError) :
    loadDirectory rel f p t = .error e ↔ firstFailure rel f p t = some e :=
  loadDirectory_error_iff rel f p t e

/-! ### The ASCII tree diagram (C4) -/

mutual
/-- Away from the `"."` special case, the code's `renderDirTree` agrees
with the spec-side rendering of a non-root entry. -/
theorem renderDirTree_spec_eq : ∀ (e : FileEntry) (pfx : String) (isLast : Bool),
    allPathsNotDot e = true → renderDirTree e pfx isLast = specTreeNode pfx isLast e
  | .mk p d s c cs, pfx, isLast, h => by
    unfold allPathsNotDot at h
    rw [Bool.and_eq_true] at h
    have hp : p ≠ "." := by simpa using h.1
    unfold renderDirTree specTreeNode
    rcases d with _ | _
    · simp [hp]
    · have hrec := renderDirTreeLoop_spec_eq cs
        (pfx ++ (if isLast then "    " else "│   ")) h.2
      simp [hp, hrec]

/-- List version of `renderDirTree_spec_eq`: the code's child loop
agrees with the spec-side child rendering. -/
theorem renderDirTreeLoop_spec_eq : ∀ (cs : List FileEntry) (pfx : String),
    allPathsNotDotList cs = true → renderDirTreeLoop pfx cs = specTreeChildren pfx cs
  | [], pfx, _ => rfl
  | [c], pfx, h => by
    unfold allPathsNotDotList at h
    rw [Bool.and_eq_true] at h
    unfold renderDirTreeLoop specTreeChildren
    exact renderDirTree_spec_eq c pfx true h.1
  | c :: c2 :: cs, pfx, h => by
    unfold allPathsNotDotList at h
    rw [Bool.and_eq_true] at h
    unfold renderDirTreeLoop specTreeChildren
    rw [renderDirTree_spec_eq c pfx false h.1,
      renderDirTreeLoop_spec_eq (c2 :: cs) pfx h.2]
end

/-- C4 counterexample: on the tree built from an explicit root argument
`"foo"`, the code *does* print the root as a line (`├── foo`), with the
children indented one level below it, whereas the spec-side rendering
(root never printed) yields `└── a.txt` only. -/
theorem renderDirTree_prints_explicit_root :
    loadDirectory relId (defaultFilter "foo") "foo"
        (.dir 0 (some [("a.txt", .file 5 (some "hello"))])) =
      .ok (some (.mk "foo" true 0 "" [.mk "foo/a.txt" false 5 "hello" []])) ∧
    renderDirTree (.mk "foo" true 0 "" [.mk "foo/a.txt" false 5 "hello" []]) "" false =
      "├── foo\n│   └── a.txt\n" ∧
    renderDirTreeSpec (.mk "foo" true 0 "" [.mk "foo/a.txt" false 5 "hello" []]) =
      "└── a.txt\n" ∧
    renderDirTree (.mk "foo" true 0 "" [.mk "foo/a.txt" false 5 "hello" []]) "" false ≠
      renderDirTreeSpec (.mk "foo" true 0 "" [.mk "foo/a.txt" false 5 "hello" []]) := by
  refine ⟨rfl, by decide, by decide, by decide⟩

/-- C4 (amended): the root entry is omitted from the diagram only when
its path is `"."` (the default invocation); for such a root — every
descendant of a built tree has a non-`"."` path — the code's rendering
with empty prefix equals the spec-side rendering, with `├── `/`└── `
connectors and `"│   "`/four-space prefix accumulation. -/
theorem renderDirTree_dot_root_eq_spec (r : FileEntry)
    (h1 : r.Path = ".") (h2 : r.IsDir = true)
    (h3 : allPathsNotDotList r.Children = true) :
    renderDirTree r "" false = renderDirTreeSpec r := by
  rcases r with ⟨p, d, s, c, cs⟩
  simp only [FileEntry.Path] at h1
  simp only [FileEntry.IsDir] at h2
  simp only [FileEntry.Children] at h3
  subst h1
  subst h2
  unfold renderDirTree renderDirTreeSpec
  simp only [FileEntry.Children]
  have hloop := renderDirTreeLoop_spec_eq cs "" h3
  simp [hloop]

/-- Witness for the amended C4 on a concrete dot-rooted tree. -/
theorem renderDirTree_dot_root_eq_spec_witness :
    ((FileEntry.mk "." true 0 ""
        [.mk "a.txt" false 5 "hello" [],
         .mk "sub" true 0 "" [.mk "sub/c.txt" false 3 "xyz" []]]).Path = "." ∧
      (FileEntry.mk "." true 0 ""
        [.mk "a.txt" false 5 "hello" [],
         .mk "sub" true 0 "" [.mk "sub/c.txt" false 3 "xyz" []]]).IsDir = true ∧
      allPathsNotDotList (FileEntry.mk "." true 0 ""
        [.mk "a.txt" false 5 "hello" [],
         .mk "sub" true 0 "" [.mk "sub/c.txt" false 3 "xyz" []]]).Children = true) ∧
    renderDirTree (FileEntry.mk "." true 0 ""
        [.mk "a.txt" false 5 "hello" [],
         .mk "sub" true 0 "" [.mk "sub/c.txt" false 3 "xyz" []]]) "" false =
      renderDirTreeSpec (FileEntry.mk "." true 0 ""
        [.mk "a.txt" false 5 "hello" [],
         .mk "sub" true 0 "" [.mk "sub/c.txt" false 3 "xyz" []]]) := by
  refine ⟨⟨rfl, rfl, by decide⟩, ?_⟩
  exact renderDirTree_dot_root_eq_spec
    (.mk "." true 0 ""
      [.mk "a.txt" false 5 "hello" [],
       .mk "sub" true 0 "" [.mk "sub/c.txt" false 3 "xyz" []]])
    rfl rfl (by decide)

/-! ### The duplicate-aware serializer (C3, C8) -/

/-- Unfolding: one serialization step. -/
theorem renderFiles_cons (noDedup : Bool) (hash : String → String)
    (e : FileEntry) (es : List FileEntry) (w : String) (m : HashIndex) :
    renderFiles noDedup hash (e :: es) w m =
      renderFiles noDedup hash es (w ++ fileChunk noDedup hash e m)
        (indexStep noDedup hash e m) := rfl

/-- Serialization distributes over list concatenation, threading the
accumulator and the digest index. -/
theorem renderFiles_append : ∀ (noDedup : Bool) (hash : String → String)
    (xs ys : List FileEntry) (w : String) (m : HashIndex),
    renderFiles noDedup hash (xs ++ ys) w m =
      renderFiles noDedup hash ys (renderFiles noDedup hash xs w m).1
        (renderFiles noDedup hash xs w m).2
  | noDedup, hash, [], ys, w, m => rfl
  | noDedup, hash, e :: es, ys, w, m => by
    simp only [List.cons_append, renderFiles_cons]
    exact renderFiles_append noDedup hash es ys _ _

/-- The accumulator only receives appends: the result is the initial
accumulator followed by the output from an empty accumulator, and the
final digest index does not depend on the accumulator. -/
theorem renderFiles_shift : ∀ (noDedup : Bool) (hash : String → String)
    (es : List FileEntry) (w : String) (m : HashIndex),
    renderFiles noDedup hash es w m =
      (w ++ (renderFiles noDedup hash es "" m).1, (renderFiles noDedup hash es "" m).2)
  | noDedup, hash, [], w, m => by simp [renderFiles]
  | noDedup, hash, e :: es, w, m => by
    simp only [renderFiles_cons]
    rw [renderFiles_shift noDedup hash es (w ++ fileChunk noDedup hash e m)
        (indexStep noDedup hash e m),
      renderFiles_shift noDedup hash es ("" ++ fileChunk noDedup hash e m)
        (indexStep noDedup hash e m)]
    rw [String.empty_append, String.append_assoc]

/-- The final digest index does not depend on the accumulator. -/
theorem renderFiles_snd (noDedup : Bool) (hash : String → String)
    (es : List FileEntry) (w : String) (m : HashIndex) :
    (renderFiles noDedup hash es w m).2 = (renderFiles noDedup hash es "" m).2 := by
  rw [renderFiles_shift noDedup hash es w m]

mutual
/-- The serializer visits exactly the non-directory entries in
depth-first listing order: `printFlattenedOutput` equals the flat
left-to-right pass over `dfsFiles`. -/
theorem printFlattened_eq_renderFiles : ∀ (noDedup : Bool) (hash : String → String)
    (e : FileEntry) (w : String) (m : HashIndex),
    printFlattenedOutput noDedup hash e w m = renderFiles noDedup hash (dfsFiles e) w m
  | noDedup, hash, .mk p d s c cs, w, m => by
    rcases d with _ | _
    · unfold printFlattenedOutput dfsFiles
      simp only [Bool.not_false, if_pos]
      rcases noDedup with _ | _
      · rcases hm : m.lookup (hash c) with _ | ex
        · simp [hm, renderFiles_cons, renderFiles, fileChunk, indexStep,
            fullBlock, FileEntry.Path, FileEntry.Content, String.append_assoc]
        · simp [hm, renderFiles_cons, renderFiles, fileChunk, indexStep,
            refBlock, FileEntry.Path, FileEntry.Content, String.append_assoc]
      · simp [renderFiles_cons, renderFiles, fileChunk, indexStep,
          fullBlock, FileEntry.Path, FileEntry.Content, String.append_assoc]
    · unfold printFlattenedOutput dfsFiles
      simp only [Bool.not_true, Bool.false_eq_true, if_false]
      exact printFlattenedList_eq_renderFiles noDedup hash cs w m

/-- List version of `printFlattened_eq_renderFiles`. -/
theorem printFlattenedList_eq_renderFiles : ∀ (noDedup : Bool) (hash : String → String)
    (cs : List FileEntry) (w : String) (m : HashIndex),
    printFlattenedList noDedup hash cs w m = renderFiles noDedup hash (dfsFilesList cs) w m
  | noDedup, hash, [], w, m => rfl
  | noDedup, hash, c :: cs, w, m => by
    unfold printFlattenedList dfsFilesList
    rw [renderFiles_append]
    rw [← printFlattened_eq_renderFiles noDedup hash c w m]
    exact printFlattenedList_eq_renderFiles noDedup hash cs _ _
end

/-- With deduplication active, looking a digest up in the index left by
a serialization pass finds the initial index's entry if present, and
otherwise the first file of the pass whose content has that digest. -/
theorem renderFiles_lookup : ∀ (hash : String → String) (es : List FileEntry)
    (m : HashIndex) (d : String),
    ((renderFiles false hash es "" m).2).lookup d =
      (match m.lookup d with
      | some v => some v
      | none => (es.find? (fun x => hash x.Content == d)).map
          (fun x => (⟨x.Path, hash x.Content, x.Content⟩ : FileHash)))
  | hash, [], m, d => by
    simp only [renderFiles, List.find?]
    rcases m.lookup d with _ | v <;> simp
  | hash, e :: es, m, d => by
    rw [renderFiles_cons]
    rw [renderFiles_snd]
    rw [renderFiles_lookup hash es (indexStep false hash e m) d]
    unfold indexStep
    rcases hm : m.lookup (hash e.Content) with _ | v
    · simp only [hm, Bool.false_eq_true, if_false]
      by_cases hde : d = hash e.Content
      · subst hde
        simp [hm, List.lookup, List.find?]
      · have hde2 : (d == hash e.Content) = false := by
          simpa using hde
        have hed2 : (hash e.Content == d) = false := by
          simpa using Ne.symm hde
        simp only [List.lookup, hde2, List.find?, hed2]
    · simp only [hm, Bool.false_eq_true, if_false]
      rcases hmd : m.lookup d with _ | v2
      · have hed2 : (hash e.Content == d) = false := by
          rcases hcmp : (hash e.Content == d) with _ | _
          · rfl
          · rw [beq_iff_eq] at hcmp
            rw [← hcmp, hm] at hmd
            exact Option.noConfusion hmd
        simp only [List.find?, hed2]
      · simp

/-- C8: with deduplication globally disabled, the serialized output is
exactly the initial accumulator followed by the full record block —
path line and full fenced content — of every file in depth-first
order; no reference line is ever produced and the digest index is
never touched, even when duplicate contents exist. -/
theorem render_noDedup_all_full (hash : String → String) (root : FileEntry)
    (w : String) (m : HashIndex) :
    printFlattenedOutput true hash root w m =
      (w ++ concatAll ((dfsFiles root).map fullBlock), m) := by
  rw [printFlattened_eq_renderFiles]
  generalize dfsFiles root = es
  induction es generalizing w with
  | nil => simp [renderFiles, concatAll]
  | cons e es ih =>
    rw [renderFiles_cons]
    have hc : fileChunk true hash e m = fullBlock e := rfl
    have hs : indexStep true hash e m = m := rfl
    rw [hc, hs, ih]
    simp [concatAll, String.append_assoc]

/-- C3: first-seen-wins deduplication.  Split the depth-first file
sequence of any tree as `pre ++ e :: post`.  The rendered output is the
rendering of `pre`, then `e`'s record block, then the rendering of
`post` from the updated index — where `e`'s block is: if some earlier
file in `pre` has `e`'s digest, a reference line naming the *first*
such file's exact path (`List.find?` returns the first match) with no
fenced content block (`refBlock`); otherwise — i.e. for the first file
with this digest — the full fenced content (`fullBlock`). -/
theorem dedup_first_seen_reference (hash : String → String) (root : FileEntry)
    (pre : List FileEntry) (e : FileEntry) (post : List FileEntry)
    (hsplit : dfsFiles root = pre ++ e :: post) :
    (printFlattenedOutput false hash root "" []).1 =
      (renderFiles false hash pre "" []).1
      ++ (match pre.find? (fun x => hash x.Content == hash e.Content) with
          | some e0 => refBlock e e0.Path
          | none => fullBlock e)
      ++ (renderFiles false hash post ""
            (renderFiles false hash (pre ++ [e]) "" []).2).1 := by
  have hm2 : (renderFiles false hash (pre ++ [e]) "" []).2 =
      indexStep false hash e (renderFiles false hash pre "" []).2 := by
    rw [renderFiles_append, renderFiles_cons]
    rfl
  have hm1 := renderFiles_lookup hash pre [] (hash e.Content)
  have hchunk : fileChunk false hash e (renderFiles false hash pre "" []).2 =
      (match pre.find? (fun x => hash x.Content == hash e.Content) with
       | some e0 => refBlock e e0.Path
       | none => fullBlock e) := by
    unfold fileChunk
    simp only [Bool.false_eq_true, if_false]
    rw [hm1]
    rcases hf : pre.find? (fun x => hash x.Content == hash e.Content) with _ | x
    · rw [hf]
      rfl
    · rw [hf]
      rfl
  rw [printFlattened_eq_renderFiles, hsplit, renderFiles_append, renderFiles_cons]
  rw [renderFiles_shift false hash post
      ((renderFiles false hash pre "" []).1
        ++ fileChunk false hash e (renderFiles false hash pre "" []).2)
      (indexStep false hash e (renderFiles false hash pre "" []).2)]
  rw [hm2, hchunk]

/-- Witness for C3 on the concrete tree built from `fsDot`:
`sub/b.txt` duplicates `a.txt`, `sub/c.txt` is fresh. -/
theorem dedup_first_seen_reference_witness :
    dfsFiles entryDot =
      [FileEntry.mk "a.txt" false 5 "hello" []]
        ++ FileEntry.mk "sub/b.txt" false 5 "hello" []
          :: [FileEntry.mk "sub/c.txt" false 3 "xyz" []] ∧
    (printFlattenedOutput false (fun s => s) entryDot "" []).1 =
      (renderFiles false (fun s => s) [FileEntry.mk "a.txt" false 5 "hello" []] "" []).1
      ++ (match [FileEntry.mk "a.txt" false 5 "hello" []].find?
            (fun x => (fun s => s) x.Content ==
              (fun s => s) (FileEntry.mk "sub/b.txt" false 5 "hello" []).Content) with
          | some e0 => refBlock (FileEntry.mk "sub/b.txt" false 5 "hello" []) e0.Path
          | none => fullBlock (FileEntry.mk "sub/b.txt" false 5 "hello" []))
      ++ (renderFiles false (fun s => s) [FileEntry.mk "sub/c.txt" false 3 "xyz" []] ""
            (renderFiles false (fun s => s)
              ([FileEntry.mk "a.txt" false 5 "hello" []]
                ++ [FileEntry.mk "sub/b.txt" false 5 "hello" []]) "" []).2).1 := by
  refine ⟨rfl, ?_⟩
  exact dedup_first_seen_reference (fun s => s) entryDot
    [FileEntry.mk "a.txt" false 5 "hello" []]
    (FileEntry.mk "sub/b.txt" false 5 "hello" [])
    [FileEntry.mk "sub/c.txt" false 3 "xyz" []] rfl

end Flatten
